import Mathlib

/-!
Verification of the leadership-discovery core of the data-mining platform
(`backend/scraper_case2.py`, `backend/agent_logic_case2.py`,
`backend/miner.py`).

Shallow-embedding conventions:

* Python `str` values are Lean `String`s.  The source only manipulates ASCII
  casing, whitespace and punctuation, on which Lean's `Char.toLower`,
  `Char.isUpper`, `Char.isDigit`, … agree with Python's `str` methods.
* Confidence scores: the source builds Python floats from the constants
  0.40 / 0.25 / 0.25 / 0.25 / 0.20 and compares them only with 0.0, 1.0 and
  the threshold 0.65.  Every partial sum the scorer can reach is a multiple
  of 0.05, and each reachable binary64 sum compares with the binary64
  literals 0.0, 1.0 and 0.65 exactly as the decimal values compare (in
  particular `0.4 + 0.25 == 0.65` holds exactly in binary64, as does
  `0.4 + 0.25 + 0.25 - 0.25 == 0.65`).  Scores are therefore embedded as
  exact integers in hundredths: weights 40, 25, 25, 25, 20, threshold 65,
  clamp to [0, 100].
* Network fetches and parsed documents are oracles: a crawled page is the
  list of its anchors, an extractor input is the list of (name, role[,
  evidence]) texts its parser produced.  The candidate construction,
  filtering, scoring, ranking and bucketing logic is translated from the
  source line by line.
-/

namespace Case2

/-- Python whitespace: the characters stripped by `str.strip()` and matched
by the regex class `\s` on the ASCII data this pipeline handles. -/
def pyWhitespace (c : Char) : Bool :=
  c = ' ' || c = '\t' || c = '\n' || c = '\r' || c = '\x0b' || c = '\x0c'

/-- Maximal non-whitespace runs of a character list, in order (the word list
produced by Python `s.split()`). -/
def wordsAux : List Char → List Char → List (List Char)
  | [], acc => if acc.isEmpty then [] else [acc.reverse]
  | c :: rest, acc =>
    if pyWhitespace c then
      if acc.isEmpty then wordsAux rest [] else acc.reverse :: wordsAux rest []
    else wordsAux rest (c :: acc)

/-- Python `s.split()` (split on whitespace runs, no empty words). -/
def pyWords (s : String) : List String :=
  (wordsAux s.toList []).map List.asString

/-- Join words with single spaces. -/
def joinSpace : List String → String
  | [] => ""
  | [w] => w
  | w :: rest => w ++ " " ++ joinSpace rest

/-- Embeds `_norm` (scraper_case2.py line 199): `re.sub(r"\s+", " ",
s.strip())`, i.e. strip the ends and collapse every whitespace run to a
single space; this equals joining the split words with single spaces. -/
def norm (s : String) : String := joinSpace (pyWords s)

/-- Python `str.lower()` on the ASCII data this pipeline handles
(`Char.toLower` maps exactly A-Z). -/
def strLower (s : String) : String := (s.toList.map Char.toLower).asString

/-- Prefix test on strings. -/
def strStartsWith (s pre : String) : Bool := pre.toList.isPrefixOf s.toList

/-- Python slicing `s[:n]`. -/
def strTake (s : String) (n : Nat) : String := (s.toList.take n).asString

/-- Python `str.strip()` with no arguments. -/
def pyStrip (s : String) : String :=
  (((s.toList.dropWhile pyWhitespace).reverse.dropWhile pyWhitespace).reverse).asString

/-- Python `str.lstrip(chars)`: removes every leading character that occurs
anywhere in `chars` — the character set, not the prefix string. -/
def pyLstrip (s chars : String) : String :=
  (s.toList.dropWhile (fun c => chars.toList.contains c)).asString

/-- Infix test on character lists (needle, then haystack). -/
def listContainsInfix (needle : List Char) : List Char → Bool
  | [] => needle.isEmpty
  | c :: t => needle.isPrefixOf (c :: t) || listContainsInfix needle t

/-- Python `needle in hay` on strings. -/
def strContains (hay needle : String) : Bool :=
  listContainsInfix needle.toList hay.toList

/-- Python `str.isupper()` on ASCII: at least one letter and no lowercase
letter. -/
def pyIsUpper (s : String) : Bool :=
  s.toList.any Char.isAlpha && s.toList.all (fun c => !c.isLower)

/-- Python `str.isalpha()` on ASCII: non-empty and all letters. -/
def pyIsAlpha (s : String) : Bool :=
  !s.toList.isEmpty && s.toList.all Char.isAlpha

/-- ROLE_KEYWORDS (scraper_case2.py lines 93-114). -/
def ROLE_KEYWORDS : List String :=
  [ "ceo", "chief executive",
    "cto", "chief technology",
    "coo", "chief operating",
    "cfo", "chief financial",
    "cmo", "chief marketing",
    "cio", "chief information",
    "chro", "chief human",
    "cpo", "chief product",
    "cro", "chief revenue",
    "cso", "chief strategy",
    "founder", "co-founder", "cofounder", "founding",
    "owner", "proprietor",
    "president",
    "vice president", "vp", "svp", "evp",
    "managing director", "director", "executive director",
    "partner", "managing partner", "principal",
    "chairman", "chairperson", "trustee",
    "dean", "registrar", "headmaster", "headmistress",
    "medical director", "clinical director",
    "head of", "department head" ]

/-- BAD_NAME_WORDS (lines 124-128). -/
def BAD_NAME_WORDS : List String :=
  [ "team", "leadership", "management", "board", "about", "company",
    "careers", "privacy", "terms", "cookies", "support", "contact", "press", "news",
    "solutions", "services", "products", "pricing", "blog", "resources" ]

/-- Embeds `_role_matches` (lines 389-393): `ROLE_RE.search` with `re.I`
finds some role keyword as a substring of the normalized role,
case-insensitively (the keywords are all lowercase ASCII). -/
def role_matches (role : String) : Bool :=
  let role := norm role
  if role = "" then false
  else ROLE_KEYWORDS.any (fun k => strContains (strLower role) k)

/-- One `NAME_TOKEN` of the `NAME_RE` regex (line 119):
`[A-Z][a-z]+` or `[A-Z]\.`. -/
def nameToken (w : String) : Bool :=
  match w.toList with
  | [] => false
  | c :: rest =>
    c.isUpper && ((!rest.isEmpty && rest.all Char.isLower) || rest == ['.'])

/-- The optional honorific piece `(?:Dr|Mr|Ms|Mrs)\.?` of `NAME_RE`. -/
def nameHonorific (w : String) : Bool :=
  w == "Dr" || w == "Dr." || w == "Mr" || w == "Mr." ||
  w == "Ms" || w == "Ms." || w == "Mrs" || w == "Mrs."

/-- The optional suffix piece `(?:Jr\.?|Sr\.?)` of `NAME_RE`. -/
def nameSuffix (w : String) : Bool :=
  w == "Jr" || w == "Jr." || w == "Sr" || w == "Sr."

/-- Two to five name tokens: `NAME_TOKEN(?:\s+NAME_TOKEN){1,4}`. -/
def nameCore (ws : List String) : Bool :=
  decide (2 ≤ ws.length) && decide (ws.length ≤ 5) && ws.all nameToken

/-- Name tokens optionally followed by a Jr/Sr suffix word. -/
def nameCoreSuffix (ws : List String) : Bool :=
  nameCore ws ||
    (match ws.getLast? with
     | some last => nameSuffix last && nameCore ws.dropLast
     | none => false)

/-- Match of the anchored `NAME_RE` regex (lines 120-122) against a
whitespace-normalized string, phrased on its word list: an optional
honorific, two to five name tokens, an optional Jr/Sr suffix.  The regex
pieces are separated by mandatory `\s+` and contain no whitespace
themselves, and a normalized string has exactly one space between words, so
a regex match assigns exactly one whole word to each piece; the Boolean
disjunctions below enumerate the regex engine's backtracking choices. -/
def nameReMatch (ws : List String) : Bool :=
  nameCoreSuffix ws ||
    (match ws with
     | w :: rest => nameHonorific w && nameCoreSuffix rest
     | [] => false)

/-- Embeds `_looks_like_human_name` (lines 370-386). -/
def looks_like_human_name (name : String) : Bool :=
  let name := norm name
  if name = "" then false
  else if name.toList.any Char.isDigit then false
  else if BAD_NAME_WORDS.contains (pyStrip (strLower name)) then false
  else if 80 < name.length then false
  else
    let tokens := pyWords name
    if tokens.length < 2 || 5 < tokens.length then false
    else if pyIsUpper name && tokens.all pyIsAlpha then true
    else nameReMatch tokens

/-- The URL keywords of `_score_candidate` (line 417). -/
def URL_LEADERSHIP_HINTS : List String :=
  [ "team", "leadership", "management", "board", "people", "administration", "directors" ]

/-- The page-URL factor of `_score_candidate`:
`any(k in page_url.lower() for k in [...])`. -/
def url_has_leadership_keyword (pageUrl : String) : Bool :=
  URL_LEADERSHIP_HINTS.any (fun k => strContains (strLower pageUrl) k)

/-- The character class `[.!?]` of the sentence splitter (line 425). -/
def sentencePunct (c : Char) : Bool := c = '.' || c = '!' || c = '?'

/-- Number of maximal runs of sentence punctuation in a character list. -/
def punctRuns : List Char → Bool → Nat
  | [], _ => 0
  | c :: rest, inRun =>
    if sentencePunct c then (if inRun then 0 else 1) + punctRuns rest true
    else punctRuns rest false

/-- Size of Python `re.split(r"[.!?]+", s)`: one more than the number of
maximal punctuation runs. -/
def splitSentenceCount (s : String) : Nat := punctRuns s.toList false + 1

/-- The evidence-length penalty condition (line 423). -/
def evidence_too_long (evidence : String) : Bool := 220 < (norm evidence).length

/-- The sentence-count penalty condition (line 425). -/
def evidence_many_sentences (evidence : String) : Bool :=
  5 ≤ splitSentenceCount (norm evidence)

/-- MIN_CONFIDENCE (line 46), in hundredths of the source's 0.65. -/
def MIN_CONFIDENCE : Int := 65

/-- Embeds `_score_candidate` (lines 414-427), in hundredths of the
source's float weights (see the header on why the integer model is
decision-exact for the float computation). -/
def score_candidate (pageUrl name role evidence : String) : Int :=
  let score : Int := 0
  let score := if url_has_leadership_keyword pageUrl then score + 40 else score
  let score := if looks_like_human_name name then score + 25 else score
  let score := if role_matches role then score + 25 else score
  let score := if evidence_too_long evidence then score - 25 else score
  let score := if evidence_many_sentences evidence then score - 20 else score
  max 0 (min 100 score)

end Case2

namespace Case2

/-- A leader candidate (scraper_case2.py lines 190-196), confidence in
hundredths. -/
structure LeaderCandidate where
  name : String
  role : String
  source_url : String
  evidence : String
  confidence : Int
deriving DecidableEq

/-- Candidate construction and confidence gate of the structured-data
extractor `_extract_jsonld_people` (lines 430-485), over the (name,
jobTitle/roleName) pairs its JSON-LD walk finds on Person nodes: the name
must pass the human-name test and the role the role-keyword test, the
evidence is `f"{name} — {role}"`, and the final comprehension keeps only
candidates whose confidence reaches MIN_CONFIDENCE. -/
def extract_jsonld_people (pairs : List (String × String)) (pageUrl : String) :
    List LeaderCandidate :=
  let found := pairs.filterMap fun p =>
    let name := norm p.1
    let role := norm p.2
    if looks_like_human_name name && role_matches role then
      let evidence := name ++ " — " ++ role
      some ⟨name, role, pageUrl, evidence, score_candidate pageUrl name role evidence⟩
    else none
  found.filter fun c => MIN_CONFIDENCE ≤ c.confidence

/-- Acceptance gate of the DOM-heuristic extractor
`_extract_html_people_strict` (lines 504-559), over the (name, role,
evidence) triples its container scan produces (heading+role pairs and
`Name — Role` lines): each is appended only when its confidence reaches
MIN_CONFIDENCE (both append sites, lines 545 and 556). -/
def extract_html_people_strict (triples : List (String × String × String))
    (pageUrl : String) : List LeaderCandidate :=
  triples.filterMap fun t =>
    let conf := score_candidate pageUrl t.1 t.2.1 t.2.2
    if MIN_CONFIDENCE ≤ conf then
      some ⟨t.1, t.2.1, pageUrl, t.2.2, conf⟩
    else none

/-- Candidate construction and confidence gate of the API-payload extractor
`_extract_from_xhr_json` (lines 616-633), over the (name, role) pairs
`_walk_json` finds in captured payloads: evidence is
`f"[XHR] {name} — {role}"` and only candidates reaching MIN_CONFIDENCE are
kept. -/
def extract_from_xhr_json (pairs : List (String × String)) (sourceUrl : String) :
    List LeaderCandidate :=
  pairs.filterMap fun p =>
    let name := norm p.1
    let role := norm p.2
    if name = "" || role = "" then none
    else
      let evidence := "[XHR] " ++ name ++ " — " ++ role
      let conf := score_candidate sourceUrl name role evidence
      if MIN_CONFIDENCE ≤ conf then
        some ⟨name, role, sourceUrl, evidence, conf⟩
      else none

/-- Embeds `_extract_all_candidates` (lines 562-566): the DOM-heuristic
extractor runs only when the structured-data extractor found nothing. -/
def extract_all_candidates (jsonldPairs : List (String × String))
    (domTriples : List (String × String × String)) (pageUrl : String) :
    List LeaderCandidate :=
  let out := extract_jsonld_people jsonldPairs pageUrl
  if !out.isEmpty then out else extract_html_people_strict domTriples pageUrl

/-- The case-insensitive deduplication key of `_dedupe_leaders` (line 404):
`(name.lower(), role.lower())` on the normalized fields. -/
def dedupeKey (c : LeaderCandidate) : String × String :=
  (strLower (norm c.name), strLower (norm c.role))

/-- Stable descending insertion: an element goes before the first
strictly-smaller-confidence entry and after every earlier entry of greater
or equal confidence. -/
def insertByConfidenceDesc (c : LeaderCandidate) :
    List LeaderCandidate → List LeaderCandidate
  | [] => [c]
  | x :: xs =>
    if x.confidence ≤ c.confidence then c :: x :: xs
    else x :: insertByConfidenceDesc c xs

/-- The descending-confidence sort of `_dedupe_leaders` (line 399),
`sorted(items, key=lambda x: x.confidence, reverse=True)`: Python's sort is
stable, and stable descending order is exactly what right-to-left insertion
with `insertByConfidenceDesc` produces — each element ends up after all
greater-or-equal-confidence elements that precede it in the input and
before all smaller-or-equal-confidence elements that follow it. -/
def sortByConfidenceDesc (items : List LeaderCandidate) : List LeaderCandidate :=
  items.foldr insertByConfidenceDesc []

/-- Loop body of `_dedupe_leaders` (lines 398-410): skip candidates with an
empty normalized name or role, keep the first occurrence of each key, append
it, and break once the output has reached `max_n` (the break test runs after
the append, so it fires only once something was appended). -/
def dedupeGo (maxN : Nat) : List LeaderCandidate → List (String × String) → Nat →
    List LeaderCandidate
  | [], _, _ => []
  | it :: rest, seen, outLen =>
    let name := norm it.name
    let role := norm it.role
    if name = "" || role = "" then dedupeGo maxN rest seen outLen
    else
      let key := (strLower name, strLower role)
      if seen.contains key then dedupeGo maxN rest seen outLen
      else
        it :: (if maxN ≤ outLen + 1 then []
               else dedupeGo maxN rest (key :: seen) (outLen + 1))

/-- Embeds `_dedupe_leaders` (lines 396-411). -/
def dedupe_leaders (items : List LeaderCandidate) (maxN : Nat) : List LeaderCandidate :=
  dedupeGo maxN (sortByConfidenceDesc items) [] 0

/-- BUCKETS (lines 144-150): the five fixed categories, in order. -/
def BUCKETS : List String :=
  [ "Executive Leadership",
    "Technology / Operations",
    "Finance / Administration",
    "Business Development / Growth",
    "Marketing / Branding" ]

/-- The ordered category rule table `_BUCKET_RULES` of scraper_case2.py
(lines 160-187). -/
def BUCKET_RULES : List (String × List String) :=
  [ ("Executive Leadership",
      [ "founder", "co-founder", "cofounder", "ceo", "chief executive",
        "managing director", "executive director", "director",
        "chairman", "chairperson", "president", "owner", "proprietor",
        "principal", "dean", "medical director", "clinical director" ]),
    ("Technology / Operations",
      [ "cto", "chief technology", "cio", "chief information",
        "coo", "chief operating", "operations", "it", "technical",
        "head of operations", "plant head" ]),
    ("Finance / Administration",
      [ "cfo", "chief financial", "finance", "accounts", "controller",
        "treasurer", "admin", "administration", "hr", "human resources",
        "compliance" ]),
    ("Business Development / Growth",
      [ "business development", "bd", "growth", "strategy",
        "partnership", "sales", "revenue", "commercial",
        "admissions", "placement" ]),
    ("Marketing / Branding",
      [ "cmo", "chief marketing", "marketing", "brand",
        "communications", "pr", "digital marketing", "outreach",
        "social media" ]) ]

/-- Embeds `_map_role_to_bucket` (lines 718-726): the first category in the
ordered rule table one of whose keywords is a substring of the lower-cased
normalized role; empty string when none matches. -/
def map_role_to_bucket (role : String) : String :=
  let r := strLower (norm role)
  if r = "" then ""
  else
    match BUCKET_RULES.find? (fun p => p.2.any fun k => strContains r k) with
    | some p => p.1
    | none => ""

/-- One category slot of the scraper's management record: the
`{"name": "", "designation": ""}` dict of `_empty_case2_management`. -/
structure BucketEntry where
  name : String
  designation : String
deriving DecidableEq

/-- The management record: the `{bucket: {name, designation}}` dict, embedded
as an association list whose key order is the construction order. -/
abbrev Management := List (String × BucketEntry)

/-- Embeds `_empty_case2_management` (lines 729-730). -/
def empty_case2_management : Management :=
  BUCKETS.map fun b => (b, ⟨"", ""⟩)

/-- An input leader dict for `_leaders_to_case2_management`: the source reads
`it.get("name", "")`, `it.get("role", "")` and `it.get("designation", "")`. -/
structure LeaderIn where
  name : String
  role : String
  designation : String
deriving DecidableEq

/-- The effective role of a leader dict (line 739):
`_norm(it.get("role", "")) or _norm(it.get("designation", ""))`. -/
def leaderRole (l : LeaderIn) : String :=
  if norm l.role ≠ "" then norm l.role else norm l.designation

/-- The dict update `mgmt[bucket]["name"] = name;
mgmt[bucket]["designation"] = role` on the association list. -/
def setBucket (m : Management) (b : String) (e : BucketEntry) : Management :=
  m.map fun p => if p.1 = b then (p.1, e) else p

/-- Loop of `_leaders_to_case2_management` (lines 737-747): skip leaders with
an empty normalized name or effective role, map the role to a bucket, skip
when no bucket matches or the bucket is already used, otherwise fill the
bucket and mark it used. -/
def case2Go : List LeaderIn → Management → List String → Management
  | [], m, _ => m
  | l :: rest, m, used =>
    let name := norm l.name
    let role := leaderRole l
    if name = "" || role = "" then case2Go rest m used
    else
      let bucket := map_role_to_bucket role
      if bucket = "" || used.contains bucket then case2Go rest m used
      else case2Go rest (setBucket m bucket ⟨name, role⟩) (bucket :: used)

/-- Embeds `_leaders_to_case2_management` (lines 733-749). -/
def leaders_to_case2_management (leaders : List LeaderIn) : Management :=
  case2Go leaders empty_case2_management []

/-- Embeds the scraper-level `_leadership_found` (lines 752-757): true when
ANY of the five categories has both a non-empty normalized name and a
non-empty normalized designation. -/
def leadership_found (m : Management) : Bool :=
  BUCKETS.any fun b =>
    match m.lookup b with
    | some d => (norm d.name != "") && (norm d.designation != "")
    | none => false

/-- Embeds `_leadership_found_strict` (agent_logic_case2.py lines 88-96):
true only when the Executive Leadership category has both a non-empty name
and a non-empty designation. -/
def leadership_found_strict (m : Management) : Bool :=
  match m.lookup "Executive Leadership" with
  | some d => (norm d.name != "") && (norm d.designation != "")
  | none => false

/-- The payload `scrape_management_from_website` returns
(`case2_management`, `"Leadership Found"`, `leaders_raw`). -/
structure ScrapeResult where
  case2_management : Management
  leadershipFoundFlag : String
  leaders_raw : List LeaderIn
deriving DecidableEq

/-- The successful-scrape return path of `scrape_management_from_website`
(lines 890-898): build the leaders list from the deduped candidates, bucket
them, and set `"Leadership Found"` from the scraper-level
`_leadership_found`. -/
def scrapeReturnFromMerged (mergedFinal : List LeaderCandidate) : ScrapeResult :=
  let leaders := mergedFinal.map fun c => LeaderIn.mk (norm c.name) (norm c.role) ""
  let mgmt := leaders_to_case2_management leaders
  { case2_management := mgmt
    leadershipFoundFlag := if leadership_found mgmt then "Yes" else "No"
    leaders_raw := leaders }

/-- The process-wide state read by the OpenAI-fallback gate: the
`_OPENAI_DISABLED` latch and reason (lines 34-35), the configured
`OPENAI_API_KEY`, and whether the `openai` package imported (lines 23-26). -/
structure ProcState where
  disabled : Bool
  disabledReason : String
  apiKey : String
  libAvailable : Bool
deriving DecidableEq

/-- Embeds `_openai_available` (lines 763-770). -/
def openai_available (st : ProcState) : Bool :=
  if st.disabled then false
  else if st.apiKey = "" || pyStrip st.apiKey = "" then false
  else if !st.libAvailable then false
  else true

/-- Embeds `_disable_openai` (lines 773-776): set the latch permanently and
record the reason, stripped and truncated to 200 characters. -/
def disable_openai (st : ProcState) (reason : String) : ProcState :=
  { st with disabled := true, disabledReason := strTake (pyStrip reason) 200 }

/-- An exception as the breaker classifier sees it: the lowered `str(e)` is
reconstructed from `msg`, and `status` is the `status_code` attribute when it
exists and converts to an int. -/
structure ExcInfo where
  msg : String
  status : Option Int
deriving DecidableEq

/-- Embeds `_should_disable_openai_from_exception` (lines 779-799). -/
def should_disable_openai_from_exception (e : ExcInfo) : Option String :=
  let msg := strLower e.msg
  if strContains msg "insufficient_quota" || strContains msg "exceeded your current quota" then
    some "OpenAI quota exhausted (429 insufficient_quota)."
  else if strContains msg "invalid api key" || strContains msg "incorrect api key" then
    some "OpenAI key invalid (401)."
  else if e.status = some 401 then
    some "OpenAI authentication failed (401)."
  else if e.status = some 403 then
    some "OpenAI permission denied (403)."
  else if e.status = some 429 then
    if strContains msg "rate limit" then none
    else some "OpenAI 429 (quota/limits)."
  else none

/-- The exception handler of the fallback call (lines 964-967): classify the
exception and set the latch when a disabling reason is found; nothing in the
process ever clears the latch. -/
def breakerStep (st : ProcState) (e : ExcInfo) : ProcState :=
  match should_disable_openai_from_exception e with
  | some reason => disable_openai st reason
  | none => st

/-- The decision taken after the page loop of
`scrape_management_from_website` (lines 890-903): when the deduped candidate
list is non-empty the scraped result is returned, otherwise only
`_openai_available()` is consulted before issuing the fallback request.
`deadlineRemaining` is the wall-clock budget left at that point (in
hundredths of a second); the source does not read it on this path. -/
def fallbackEntered (mergedFinal : List LeaderCandidate) (st : ProcState)
    (deadlineRemaining : Int) : Bool :=
  if !mergedFinal.isEmpty then false
  else openai_available st

/-- The "hard validate" loop the fallback applies to the model-returned
(name, role) pairs (lines 942-955): keep pairs passing the human-name and
role-keyword tests, dedupe them case-insensitively, and stop at
`max_leaders`; no confidence scoring runs on this path. -/
def llmCleanGo (maxLeaders : Nat) : List (String × String) → List (String × String) → Nat →
    List (String × String)
  | [], _, _ => []
  | it :: rest, seen, outLen =>
    let n := norm it.1
    let r := norm it.2
    if !(looks_like_human_name n && role_matches r) then
      llmCleanGo maxLeaders rest seen outLen
    else
      let k := (strLower n, strLower r)
      if seen.contains k then llmCleanGo maxLeaders rest seen outLen
      else
        (n, r) :: (if maxLeaders ≤ outLen + 1 then []
                   else llmCleanGo maxLeaders rest (k :: seen) (outLen + 1))

/-- The validated leader list of the fallback path (lines 942-955). -/
def llmClean (leaders : List (String × String)) (maxLeaders : Nat) :
    List (String × String) :=
  llmCleanGo maxLeaders leaders [] 0

/-- The fallback-path return of `scrape_management_from_website`
(lines 942-962): the validated pairs are bucketed and returned as
`leaders_raw`, with the flag from the scraper-level `_leadership_found`. -/
def llmFallbackReturn (leaders : List (String × String)) (maxLeaders : Nat) :
    ScrapeResult :=
  let clean := (llmClean leaders maxLeaders).map fun p => LeaderIn.mk p.1 p.2 ""
  let mgmt := leaders_to_case2_management clean
  { case2_management := mgmt
    leadershipFoundFlag := if leadership_found mgmt then "Yes" else "No"
    leaders_raw := clean }

/-- The components `urllib.parse.urlparse` returns for the
`scheme://netloc/path?query` URLs this crawler builds (no fragments or
path parameters occur: `_normalize_url` drops them and re-serializes). -/
structure UrlParts where
  scheme : String
  netloc : String
  path : String
  query : String
deriving DecidableEq

/-- Split a character list at the first character satisfying `p`, keeping
that character in the second half. -/
def splitAtFirst (p : Char → Bool) : List Char → List Char × List Char
  | [] => ([], [])
  | c :: rest =>
    if p c then ([], c :: rest)
    else
      let (a, b) := splitAtFirst p rest
      (c :: a, b)

/-- Models `urllib.parse.urlparse` on URLs carrying an explicit
`scheme://`: the netloc runs to the first `/`, `?` or `#`, the path to the
first `?` or `#`, the query to the first `#`.  A URL without `://` parses
with empty scheme and netloc and everything in the path, as urlparse does
for scheme-less input. -/
def urlparse (url : String) : UrlParts :=
  let cs := url.toList
  let (schemePart, rest) :=
    if listContainsInfix "://".toList cs then
      let (s, r) := splitAtFirst (fun c => c = ':') cs
      (s, r.drop 3)
    else ([], cs)
  let (netlocPart, rest2) :=
    if schemePart.isEmpty then ([], cs)
    else splitAtFirst (fun c => c = '/' || c = '?' || c = '#') rest
  let (pathPart, rest3) := splitAtFirst (fun c => c = '?' || c = '#') rest2
  let queryPart :=
    match rest3 with
    | '?' :: qs => (splitAtFirst (fun c => c = '#') qs).1
    | _ => []
  ⟨schemePart.asString, netlocPart.asString, pathPart.asString, queryPart.asString⟩

/-- Models `urllib.parse.urlunparse((scheme, netloc, path, "", query, ""))`
as `_normalize_url` uses it. -/
def urlunparse (scheme netloc path query : String) : String :=
  scheme ++ "://" ++ netloc ++ path ++ (if query = "" then "" else "?" ++ query)

/-- The check `re.match(r"^https?://", url, re.I)` of `_normalize_url`. -/
def startsWithHttpScheme (url : String) : Bool :=
  strStartsWith (strLower url) "http://" || strStartsWith (strLower url) "https://"

/-- Embeds `_normalize_url` (lines 210-223): strip, prepend `https://` when
no HTTP scheme is present, lowercase scheme and netloc, default the path to
`/`, keep the query, drop params and fragment. -/
def normalize_url (url : String) : String :=
  let url := pyStrip url
  if url = "" then ""
  else
    let url := if startsWithHttpScheme url then url else "https://" ++ pyLstrip url "/"
    let p := urlparse url
    let scheme := strLower (if p.scheme = "" then "https" else p.scheme)
    let netloc := strLower p.netloc
    let path := if p.path = "" then "/" else p.path
    urlunparse scheme netloc path p.query

/-- Embeds `_base_domain` (lines 226-231): the lowered netloc with
`lstrip("www.")` applied — which strips every leading `w` or `.` character,
not the `www.` prefix. -/
def base_domain (url : String) : String :=
  pyLstrip (strLower (urlparse url).netloc) "www."

/-- Embeds `_same_domain` (lines 234-236). -/
def same_domain (a b : String) : Bool :=
  let da := base_domain a
  let db := base_domain b
  (da != "") && (da == db)

/-- Models `urllib.parse.urljoin` for the references this crawler feeds it:
absolute `http(s)` URLs are taken as-is, root-relative references replace
the base path, and other non-empty references are resolved against the base
path's directory.  (The crawler never passes empty, `mailto:`, `tel:` or
fragment-only references — they are filtered first.) -/
def urljoin (base ref : String) : String :=
  if startsWithHttpScheme ref then ref
  else
    let b := urlparse base
    if strStartsWith ref "/" then b.scheme ++ "://" ++ b.netloc ++ ref
    else if ref = "" then base
    else
      let dir := ((b.path.toList.reverse.dropWhile (fun c => c ≠ '/')).reverse).asString
      b.scheme ++ "://" ++ b.netloc ++ (if dir = "" then "/" else dir) ++ ref

/-- MAX_INTERNAL_PAGES (line 41). -/
def MAX_INTERNAL_PAGES : Nat := 8

/-- MAX_CRAWL_DEPTH (line 42). -/
def MAX_CRAWL_DEPTH : Nat := 2

/-- DISCOVERY_PATHS (lines 53-64). -/
def DISCOVERY_PATHS : List String :=
  [ "/team", "/leadership", "/management", "/board", "/about",
    "/people", "/our-team", "/our-leadership", "/administration", "/directors" ]

/-- LEADERSHIP_LINK_KEYWORDS (lines 66-79). -/
def LEADERSHIP_LINK_KEYWORDS : List String :=
  [ "team", "leadership", "management", "board", "people", "executive",
    "founder", "directors", "who-we-are", "about", "administration", "staff" ]

/-- CONTACT_LINK_KEYWORDS (lines 81-90). -/
def CONTACT_LINK_KEYWORDS : List String :=
  [ "contact", "contact-us", "reach-us", "support", "help",
    "enquiry", "inquiry", "admissions" ]

/-- The negative-keyword blocklist of `push` (line 663). -/
def CRAWL_BLOCKLIST : List String :=
  [ "/blog", "/news", "/events", "/careers", "/jobs", "/privacy", "/terms" ]

/-- An `<a href=...>` element as the crawler reads it: href, text content,
aria-label and title. -/
structure Anchor where
  href : String
  text : String
  ariaLabel : String
  title : String
deriving DecidableEq

/-- The fetched web, as an oracle: a page URL maps to the anchor list of its
HTML, or `none` when `_fetch_static` returned no usable HTML. -/
abbrev Web := String → Option (List Anchor)

/-- The crawler's mutable state: the `seen` set and the BFS queue of
(url, depth) pairs.  `seen` is kept as a list; only membership is used. -/
structure CrawlState where
  seen : List String
  queue : List (String × Nat)
deriving DecidableEq

/-- Embeds `push` of `_discover_internal_pages` (lines 653-667): normalize,
drop empty / already-seen / off-domain / blocklisted URLs, else record the
URL as seen and enqueue it. -/
def pushPage (home : String) (st : CrawlState) (u : String) (depth : Nat) : CrawlState :=
  let u := normalize_url u
  if u = "" then st
  else if st.seen.contains u then st
  else if !same_domain u home then st
  else if CRAWL_BLOCKLIST.any (fun x => strContains (strLower u) x) then st
  else { seen := st.seen ++ [u], queue := st.queue ++ [(u, depth)] }

/-- Embeds `is_candidate` (lines 646-648): some keyword occurs in the
lowered URL joined with the lowered anchor text. -/
def isCandidateLink (keywords : List String) (u anchorText : String) : Bool :=
  let probe := strLower u ++ " " ++ strLower anchorText
  keywords.any fun k => strContains probe k

/-- The anchor loop of `_discover_internal_pages` (lines 686-703): skip
empty and `mailto:`/`tel:`/`javascript:` hrefs, resolve and normalize, skip
off-domain targets, push keyword-matching links, and break once
`len(results) + len(queue)` reaches the page cap (the break test is
skipped by `continue` paths, as in the source). -/
def processAnchors (home : String) (keywords : List String) (pageUrl : String)
    (depth : Nat) : List Anchor → Nat → CrawlState → CrawlState
  | [], _, st => st
  | a :: rest, resultsLen, st =>
    let href := pyStrip a.href
    if href = "" || strStartsWith href "mailto:" || strStartsWith href "tel:"
        || strStartsWith href "javascript:" then
      processAnchors home keywords pageUrl depth rest resultsLen st
    else
      let full := normalize_url (urljoin pageUrl href)
      if full = "" || !same_domain full home then
        processAnchors home keywords pageUrl depth rest resultsLen st
      else
        let anchor := pyStrip (norm a.text ++ " " ++ norm a.ariaLabel ++ " " ++ norm a.title)
        let st := if isCandidateLink keywords full anchor then pushPage home st full (depth + 1)
                  else st
        if MAX_INTERNAL_PAGES ≤ resultsLen + st.queue.length then st
        else processAnchors home keywords pageUrl depth rest resultsLen st

/-- The main crawl loop (lines 674-703).  `clock tick` models the per-pass
test `_deadline_remaining(deadline_ts) > 1.0`.  Each pass pops one queue
entry and appends it to the results, so `len(results) < MAX_INTERNAL_PAGES`
is encoded by the fuel, which starts at MAX_INTERNAL_PAGES and falls by one
per pass. -/
def discoverLoop (web : Web) (home : String) (keywords : List String)
    (clock : Nat → Bool) : Nat → Nat → CrawlState → List String → List String
  | 0, _, _, results => results
  | fuel + 1, tick, st, results =>
    match st.queue with
    | [] => results
    | (url, depth) :: qrest =>
      if !clock tick then results
      else
        let results := results ++ [url]
        let st' : CrawlState := { seen := st.seen, queue := qrest }
        if MAX_CRAWL_DEPTH ≤ depth then
          discoverLoop web home keywords clock fuel (tick + 1) st' results
        else
          match web url with
          | none => discoverLoop web home keywords clock fuel (tick + 1) st' results
          | some anchors =>
            let st'' := processAnchors home keywords url depth anchors results.length st'
            discoverLoop web home keywords clock fuel (tick + 1) st'' results

/-- The final order-preserving dedup of `_discover_internal_pages`
(lines 705-710). -/
def dedupKeepFirst : List String → List String → List String
  | [], _ => []
  | u :: rest, seen2 =>
    if seen2.contains u then dedupKeepFirst rest seen2
    else u :: dedupKeepFirst rest (u :: seen2)

/-- Embeds `_discover_internal_pages` (lines 639-712), over a web oracle and
a deadline oracle. -/
def discover_internal_pages (web : Web) (clock : Nat → Bool)
    (homeUrl : String) (kind : String) : List String :=
  let home := normalize_url homeUrl
  if home = "" then []
  else
    let keywords := if kind = "leadership" then LEADERSHIP_LINK_KEYWORDS
                    else CONTACT_LINK_KEYWORDS
    let st0 : CrawlState := ⟨[], []⟩
    let st1 := pushPage home st0 home 0
    let seeds := if kind = "leadership" then DISCOVERY_PATHS
                 else ["/contact", "/contact-us", "/support", "/help"]
    let st2 := seeds.foldl (fun st p => pushPage home st (urljoin home p) 1) st1
    let results := discoverLoop web home keywords clock MAX_INTERNAL_PAGES 0 st2 []
    (dedupKeepFirst results []).take MAX_INTERNAL_PAGES

/-- The first leader of a list whose effective role the rule table maps to
bucket `b`, skipping leaders with an empty normalized name or role — the
specification-side description of which leader the bucket classifier places
in a category. -/
def first_leader_for_bucket (leaders : List LeaderIn) (b : String) : BucketEntry :=
  match leaders.find? (fun l =>
      (norm l.name != "") && (leaderRole l != "") && (map_role_to_bucket (leaderRole l) == b)) with
  | some l => ⟨norm l.name, leaderRole l⟩
  | none => ⟨"", ""⟩

/-- Extraction results of one page visit, as the page loop of
`scrape_management_from_website` (lines 854-888) sees them: the (name, role)
pairs the JSON-LD walk produced, the (name, role, evidence) triples the DOM
scan produced, the (name, role) pairs found in captured XHR payloads, and
the page URL. -/
structure PageExtract where
  jsonldPairs : List (String × String)
  domTriples : List (String × String × String)
  xhrPairs : List (String × String)
  url : String
deriving DecidableEq

/-- The candidate accumulation of the page loop: `all_candidates` collects
the `_extract_all_candidates` output of every processed page (static or
dynamic), `xhr_candidates` the `_extract_from_xhr_json` outputs, and the
deduper receives `all_candidates + xhr_candidates` (line 890). -/
def mergedCandidates (pages : List PageExtract) : List LeaderCandidate :=
  (pages.map fun p => extract_all_candidates p.jsonldPairs p.domTriples p.url).flatten
    ++ (pages.map fun p => extract_from_xhr_json p.xhrPairs p.url).flatten

/-- The property an exception must have for the claim "quota exhaustion,
invalid credentials, or a permission error": exactly the indicators
`_should_disable_openai_from_exception` tests for those three classes
(quota text, invalid-key text, or HTTP status 401/403). -/
def quotaAuthIndicator (e : ExcInfo) : Bool :=
  strContains (strLower e.msg) "insufficient_quota"
    || strContains (strLower e.msg) "exceeded your current quota"
    || strContains (strLower e.msg) "invalid api key"
    || strContains (strLower e.msg) "incorrect api key"
    || e.status == some 401
    || e.status == some 403

/-- A concrete web for the page-discoverer counterexample: the home page of
`https://wild.com` links to `https://ild.com/contact`; every other fetch
fails. -/
def webWild : Web := fun u =>
  if u = "https://wild.com/" then
    some [⟨"https://ild.com/contact", "Contact", "", ""⟩]
  else none

end Case2

namespace Case2

/-! Theorems.  Each claim of the specification is settled below; helper
lemmas are shared, claim theorems are not reused. -/

theorem score_bound_of_no_keyword {pageUrl : String}
    (h : url_has_leadership_keyword pageUrl = false) (name role evidence : String) :
    score_candidate pageUrl name role evidence ≤ 50 := by
  simp only [score_candidate, h, if_false, Bool.false_eq_true]
  split_ifs <;> norm_num

/-- C4: for every (pageUrl, name, role, evidence), the confidence score
equals the clamp to [0,1] of 0.40 if the page URL contains a
leadership-relevant keyword, plus 0.25 if the name passes the human-name
shape test, plus 0.25 if the role matches the role-keyword set, minus 0.25
if the evidence text exceeds 220 characters, minus 0.20 if the evidence
text spans 5 or more sentence pieces — stated in hundredths of the source's
float weights, which the integer model represents exactly. -/
theorem score_candidate_is_clamped_weighted_sum
    (pageUrl name role evidence : String) :
    score_candidate pageUrl name role evidence =
      max 0 (min 100
        ((if url_has_leadership_keyword pageUrl then (40 : Int) else 0)
          + (if looks_like_human_name name then 25 else 0)
          + (if role_matches role then 25 else 0)
          - (if evidence_too_long evidence then 25 else 0)
          - (if evidence_many_sentences evidence then 20 else 0))) := by
  simp only [score_candidate]
  split_ifs <;> norm_num

/-- C10: a candidate whose source page URL contains none of the leadership
URL keywords scores at most 0.50, hence below the 0.65 threshold, and the
structured-data, DOM-heuristic and API-payload extractors all return the
empty candidate list for such a page. -/
theorem non_leadership_url_never_contributes (pageUrl : String)
    (h : url_has_leadership_keyword pageUrl = false) :
    (∀ name role evidence,
        score_candidate pageUrl name role evidence ≤ 50
          ∧ score_candidate pageUrl name role evidence < MIN_CONFIDENCE)
    ∧ (∀ pairs, extract_jsonld_people pairs pageUrl = [])
    ∧ (∀ triples, extract_html_people_strict triples pageUrl = [])
    ∧ (∀ pairs, extract_from_xhr_json pairs pageUrl = []) := by
  have hlt : ∀ name role evidence,
      score_candidate pageUrl name role evidence < MIN_CONFIDENCE := by
    intro name role evidence
    have := score_bound_of_no_keyword h name role evidence
    simp only [MIN_CONFIDENCE]
    omega
  refine ⟨fun name role evidence => ⟨score_bound_of_no_keyword h name role evidence,
      hlt name role evidence⟩, ?_, ?_, ?_⟩
  · intro pairs
    simp only [extract_jsonld_people]
    rw [List.filter_eq_nil_iff]
    intro c hc
    rw [List.mem_filterMap] at hc
    obtain ⟨p, _, hpc⟩ := hc
    split_ifs at hpc with hcond
    cases hpc
    have := hlt (norm p.1) (norm p.2) (norm p.1 ++ " — " ++ norm p.2)
    simp only [decide_eq_true_eq]
    omega
  · intro triples
    simp only [extract_html_people_strict]
    rw [List.filterMap_eq_nil_iff]
    intro t _
    have := hlt t.1 t.2.1 t.2.2
    split_ifs with hcond
    · omega
    · rfl
  · intro pairs
    simp only [extract_from_xhr_json]
    rw [List.filterMap_eq_nil_iff]
    intro p _
    have := hlt (norm p.1) (norm p.2) ("[XHR] " ++ norm p.1 ++ " — " ++ norm p.2)
    split_ifs with h1 h2
    · rfl
    · omega
    · rfl

/-- Witness for C10 at a concrete input: the URL
`https://example.com/about` contains no leadership URL keyword, and a
perfect name/role pair on that page still scores only 0.50 and yields no
extracted candidate. -/
theorem non_leadership_url_never_contributes_witness :
    url_has_leadership_keyword "https://example.com/about" = false
      ∧ score_candidate "https://example.com/about" "John Smith" "CEO" "" ≤ 50
      ∧ extract_jsonld_people [("John Smith", "CEO")] "https://example.com/about" = [] := by
  have h := non_leadership_url_never_contributes "https://example.com/about" (by decide)
  exact ⟨by decide, (h.1 "John Smith" "CEO" "").1, h.2.1 [("John Smith", "CEO")]⟩

theorem setBucket_keys (m : Management) (b : String) (e : BucketEntry) :
    (setBucket m b e).map Prod.fst = m.map Prod.fst := by
  induction m with
  | nil => rfl
  | cons p rest ih =>
    simp only [setBucket, List.map_cons] at ih ⊢
    by_cases h : p.1 = b <;> simp [h, ih]

theorem lookup_cons_self (k : String) (v : BucketEntry) (rest : Management) :
    ((k, v) :: rest).lookup k = some v := by
  simp [List.lookup]

theorem lookup_cons_ne (k a : String) (v : BucketEntry) (rest : Management)
    (h : a ≠ k) : ((k, v) :: rest).lookup a = rest.lookup a := by
  have hbeq : (a == k) = false := by
    simp [h]
  simp [List.lookup, hbeq]

theorem lookup_setBucket_self (m : Management) (b : String) (e x : BucketEntry)
    (hm : m.lookup b = some x) : (setBucket m b e).lookup b = some e := by
  induction m with
  | nil => simp [List.lookup] at hm
  | cons p rest ih =>
    obtain ⟨k, v⟩ := p
    by_cases h : k = b
    · subst h
      have hhead : setBucket ((k, v) :: rest) k e = (k, e) :: setBucket rest k e := by
        simp [setBucket]
      rw [hhead]
      exact lookup_cons_self k e _
    · have hm' : rest.lookup b = some x := by
        rw [lookup_cons_ne k b v rest (Ne.symm h)] at hm
        exact hm
      have hih := ih hm'
      simp only [setBucket, List.map_cons] at hih ⊢
      rw [if_neg h, lookup_cons_ne k b v _ (Ne.symm h)]
      exact hih

theorem lookup_setBucket_ne (m : Management) (b a : String) (e : BucketEntry)
    (h : a ≠ b) : (setBucket m b e).lookup a = m.lookup a := by
  induction m with
  | nil => rfl
  | cons p rest ih =>
    obtain ⟨k, v⟩ := p
    by_cases hp : k = b
    · subst hp
      have hhead : setBucket ((k, v) :: rest) k e = (k, e) :: setBucket rest k e := by
        simp [setBucket]
      rw [hhead, lookup_cons_ne k a e _ h, lookup_cons_ne k a v _ h]
      exact ih
    · simp only [setBucket, List.map_cons, if_neg hp]
      by_cases ha : a = k
      · subst ha
        rw [lookup_cons_self, lookup_cons_self]
      · rw [lookup_cons_ne k a v _ ha, lookup_cons_ne k a v _ ha]
        exact ih

theorem case2Go_keys (leaders : List LeaderIn) :
    ∀ (m : Management) (used : List String),
      (case2Go leaders m used).map Prod.fst = m.map Prod.fst := by
  induction leaders with
  | nil => intro m used; rfl
  | cons l rest ih =>
    intro m used
    simp only [case2Go]
    split_ifs with h1 h2
    · exact ih m used
    · exact ih m used
    · rw [ih, setBucket_keys]

theorem case2Go_entries (leaders : List LeaderIn) :
    ∀ (m : Management) (used : List String),
      (∀ p ∈ m, (p.2.name = "" ∧ p.2.designation = "")
          ∨ (p.2.name ≠ "" ∧ p.2.designation ≠ "")) →
      ∀ p ∈ case2Go leaders m used,
        (p.2.name = "" ∧ p.2.designation = "")
          ∨ (p.2.name ≠ "" ∧ p.2.designation ≠ "") := by
  induction leaders with
  | nil => intro m used hm; exact hm
  | cons l rest ih =>
    intro m used hm
    simp only [case2Go]
    split_ifs with h1 h2
    · exact ih m used hm
    · exact ih m used hm
    · apply ih
      intro q hq
      simp only [Bool.or_eq_true, decide_eq_true_eq, not_or] at h1
      simp only [setBucket, List.mem_map] at hq
      obtain ⟨q0, hq0m, heq⟩ := hq
      by_cases hqb : q0.1 = map_role_to_bucket (leaderRole l)
      · rw [if_pos hqb] at heq
        right
        rw [← heq]
        exact ⟨h1.1, h1.2⟩
      · rw [if_neg hqb] at heq
        rw [← heq]
        exact hm q0 hq0m

/-- C2: for every input leader list, the bucket classifier returns a
management record whose key list is exactly the five fixed category names,
and every category is either fully empty (name and designation both empty)
or fully populated (both non-empty) — never half-filled. -/
theorem management_record_five_buckets_all_or_nothing (leaders : List LeaderIn) :
    (leaders_to_case2_management leaders).map Prod.fst = BUCKETS
    ∧ ∀ p ∈ leaders_to_case2_management leaders,
        (p.2.name = "" ∧ p.2.designation = "")
          ∨ (p.2.name ≠ "" ∧ p.2.designation ≠ "") := by
  constructor
  · rw [leaders_to_case2_management, case2Go_keys]
    rfl
  · apply case2Go_entries
    intro p hp
    left
    simp only [empty_case2_management, List.mem_map] at hp
    obtain ⟨b, _, rfl⟩ := hp
    exact ⟨rfl, rfl⟩

/-- Witness for C2 at a concrete input: one CEO leader fills exactly the
Executive Leadership category, the key list is the five buckets, and the
filled entry is fully populated. -/
theorem management_record_five_buckets_witness :
    ((leaders_to_case2_management [⟨"John Smith", "CEO", ""⟩]).map Prod.fst = BUCKETS)
    ∧ ((("Executive Leadership", (⟨"John Smith", "CEO"⟩ : BucketEntry)).2.name = ""
          ∧ ("Executive Leadership", (⟨"John Smith", "CEO"⟩ : BucketEntry)).2.designation = "")
        ∨ (("Executive Leadership", (⟨"John Smith", "CEO"⟩ : BucketEntry)).2.name ≠ ""
          ∧ ("Executive Leadership", (⟨"John Smith", "CEO"⟩ : BucketEntry)).2.designation ≠ "")) := by
  refine ⟨(management_record_five_buckets_all_or_nothing [⟨"John Smith", "CEO", ""⟩]).1, ?_⟩
  exact (management_record_five_buckets_all_or_nothing [⟨"John Smith", "CEO", ""⟩]).2
    ("Executive Leadership", ⟨"John Smith", "CEO"⟩) (by decide)

theorem case2Go_lookup_used (leaders : List LeaderIn) :
    ∀ (m : Management) (used : List String) (b : String),
      b ∈ used →
      (case2Go leaders m used).lookup b = m.lookup b := by
  induction leaders with
  | nil => intro m used b _; rfl
  | cons l rest ih =>
    intro m used b hb
    simp only [case2Go]
    split_ifs with h1 h2
    · exact ih m used b hb
    · exact ih m used b hb
    · simp only [Bool.or_eq_true, decide_eq_true_eq, not_or, Bool.not_eq_true] at h2
      have hused : map_role_to_bucket (leaderRole l) ∉ used := by
        simpa using h2.2
      have hne : b ≠ map_role_to_bucket (leaderRole l) := by
        intro hcontr
        exact hused (hcontr ▸ hb)
      rw [ih _ _ b (List.mem_cons_of_mem _ hb),
        lookup_setBucket_ne _ _ _ _ hne]

theorem case2Go_lookup_unused (leaders : List LeaderIn) :
    ∀ (m : Management) (used : List String) (b : String) (x : BucketEntry),
      b ∉ used → b ≠ "" → m.lookup b = some x →
      (case2Go leaders m used).lookup b =
        some (match leaders.find? (fun l =>
            (norm l.name != "") && (leaderRole l != "")
              && (map_role_to_bucket (leaderRole l) == b)) with
          | some l => BucketEntry.mk (norm l.name) (leaderRole l)
          | none => x) := by
  induction leaders with
  | nil => intro m used b x _ _ hm; simpa [case2Go, List.find?] using hm
  | cons l rest ih =>
    intro m used b x hb hbne hm
    simp only [case2Go]
    split_ifs with h1 h2
    · simp only [Bool.or_eq_true, decide_eq_true_eq] at h1
      have hpred : ((norm l.name != "") && (leaderRole l != "")
          && (map_role_to_bucket (leaderRole l) == b)) = false := by
        rcases h1 with h | h <;> simp [h]
      simp only [List.find?_cons, hpred]
      exact ih m used b x hb hbne hm
    · simp only [Bool.or_eq_true, decide_eq_true_eq] at h2
      have hbne2 : map_role_to_bucket (leaderRole l) ≠ b := by
        rcases h2 with h | h
        · rw [h]; exact fun hc => hbne hc.symm
        · intro hc
          rw [hc] at h
          exact hb (by simpa using h)
      have hpred : ((norm l.name != "") && (leaderRole l != "")
          && (map_role_to_bucket (leaderRole l) == b)) = false := by
        simp [hbne2]
      simp only [List.find?_cons, hpred]
      exact ih m used b x hb hbne hm
    · simp only [Bool.or_eq_true, decide_eq_true_eq, not_or, Bool.not_eq_true] at h1 h2
      by_cases hba : map_role_to_bucket (leaderRole l) = b
      · have hpred : ((norm l.name != "") && (leaderRole l != "")
            && (map_role_to_bucket (leaderRole l) == b)) = true := by
          simp [h1.1, h1.2, hba]
        simp only [List.find?_cons, hpred]
        rw [hba] at h2 ⊢
        rw [case2Go_lookup_used rest _ _ b (List.mem_cons_self b used)]
        exact lookup_setBucket_self m b _ x hm
      · have hpred : ((norm l.name != "") && (leaderRole l != "")
            && (map_role_to_bucket (leaderRole l) == b)) = false := by
          simp [hba]
        simp only [List.find?_cons, hpred]
        refine ih _ _ b x ?_ hbne ?_
        · intro hmem
          rcases List.mem_cons.mp hmem with hc | hc
          · exact hba hc.symm
          · exact hb hc
        · exact (lookup_setBucket_ne m _ b _ (fun hc => hba hc.symm)).trans hm

/-- C9: the bucket classifier fills each of the five categories with exactly
the first leader, in rank order, whose role the ordered rule table maps to
that category (skipping leaders with empty normalized name or role); a
second leader mapped to the same category is dropped, so each category holds
at most one leader. -/
theorem bucket_classifier_first_match_first_rank (leaders : List LeaderIn)
    (b : String) (hb : b ∈ BUCKETS) :
    (leaders_to_case2_management leaders).lookup b =
      some (first_leader_for_bucket leaders b) := by
  have hbne : b ≠ "" := by
    intro h
    rw [h] at hb
    simp [BUCKETS] at hb
  have hm : empty_case2_management.lookup b = some ⟨"", ""⟩ := by
    simp only [BUCKETS, List.mem_cons, List.not_mem_nil, or_false] at hb
    rcases hb with rfl | rfl | rfl | rfl | rfl <;> rfl
  rw [leaders_to_case2_management, first_leader_for_bucket,
    case2Go_lookup_unused leaders empty_case2_management [] b ⟨"", ""⟩
      (List.not_mem_nil b) hbne hm]

/-- Witness for C9 at a concrete input: with a CFO ranked first and a Head
of Finance ranked second, both mapping to Finance / Administration, the
category holds the CFO and the second leader is dropped. -/
theorem bucket_classifier_first_match_witness :
    ((leaders_to_case2_management
        [⟨"John Smith", "CFO", ""⟩, ⟨"Jane Doe", "Head of Finance", ""⟩]).lookup
        "Finance / Administration" =
      some (first_leader_for_bucket
        [⟨"John Smith", "CFO", ""⟩, ⟨"Jane Doe", "Head of Finance", ""⟩]
        "Finance / Administration"))
    ∧ first_leader_for_bucket
        [⟨"John Smith", "CFO", ""⟩, ⟨"Jane Doe", "Head of Finance", ""⟩]
        "Finance / Administration" = ⟨"John Smith", "CFO"⟩ := by
  refine ⟨bucket_classifier_first_match_first_rank _ _ (by decide), by decide⟩

theorem leadership_found_iff (m : Management) :
    leadership_found m = true ↔
      ∃ b ∈ BUCKETS, ∃ e : BucketEntry,
        m.lookup b = some e ∧ norm e.name ≠ "" ∧ norm e.designation ≠ "" := by
  simp only [leadership_found, List.any_eq_true]
  constructor
  · rintro ⟨b, hb, hmatch⟩
    refine ⟨b, hb, ?_⟩
    cases hml : m.lookup b with
    | none => rw [hml] at hmatch; cases hmatch
    | some e =>
      rw [hml] at hmatch
      simp only [Bool.and_eq_true, bne_iff_ne] at hmatch
      exact ⟨e, rfl, hmatch.1, hmatch.2⟩
  · rintro ⟨b, hb, e, hml, h1, h2⟩
    refine ⟨b, hb, ?_⟩
    rw [hml]
    simp [h1, h2]

/-- C1 counterexample: a single accepted candidate "John Smith — CMO",
extracted by the structured-data extractor from a `/team` page (so it passes
every gate of the real pipeline), buckets into Marketing / Branding only,
yet the scraper-level return carries `Leadership Found = "Yes"` while the
Executive Leadership category is completely empty — contradicting the claim
that the flag is "Yes" only when Executive Leadership is populated. -/
theorem scraper_flag_yes_without_executive :
    (scrapeReturnFromMerged (dedupe_leaders
        (extract_jsonld_people [("John Smith", "CMO")] "https://example.com/team")
        5)).leadershipFoundFlag = "Yes"
    ∧ (scrapeReturnFromMerged (dedupe_leaders
        (extract_jsonld_people [("John Smith", "CMO")] "https://example.com/team")
        5)).case2_management.lookup "Executive Leadership" = some ⟨"", ""⟩ := by
  constructor
  · decide
  · decide

/-- C1 as amended: the flag of the scraper-level discovery payload is "Yes"
exactly when at least one of the five categories of the returned management
record is fully populated — Executive Leadership populated still implies
"Yes", but any other populated category produces "Yes" as well.  (Only the
downstream enrichment wrapper `_leadership_found_strict` recomputes the flag
from Executive Leadership alone.) -/
theorem scraper_flag_iff_some_bucket_populated (merged : List LeaderCandidate) :
    (scrapeReturnFromMerged merged).leadershipFoundFlag = "Yes" ↔
      ∃ b ∈ BUCKETS, ∃ e : BucketEntry,
        (scrapeReturnFromMerged merged).case2_management.lookup b = some e
          ∧ norm e.name ≠ "" ∧ norm e.designation ≠ "" := by
  simp only [scrapeReturnFromMerged]
  rw [← leadership_found_iff]
  by_cases h : leadership_found (leaders_to_case2_management
      (merged.map fun c => LeaderIn.mk (norm c.name) (norm c.role) "")) = true
  · simp [h]
  · simp only [Bool.not_eq_true] at h
    simp [h]

/-- C6 counterexample: with the per-target deadline fully exhausted (zero
remaining), zero surviving candidates, a closed breaker, a configured key
and an importable client library, the fallback is still entered — the
orchestrator never consults the deadline before the fallback call,
contradicting the claim that a failed deadline precondition prevents the
fallback request. -/
theorem fallback_entered_with_exhausted_deadline :
    fallbackEntered [] ⟨false, "", "sk-test", true⟩ 0 = true := by decide

/-- C6 as amended: the fallback is entered exactly when the deduped
candidate list is empty and `_openai_available()` holds (breaker closed, a
non-blank key configured, client library importable); the remaining
deadline is not consulted, so the fallback can be entered with no margin
left, and pages need not have been exhausted. -/
theorem fallback_entry_condition (merged : List LeaderCandidate)
    (st : ProcState) (d d' : Int) :
    (fallbackEntered merged st d =
      (merged.isEmpty && (!st.disabled && (pyStrip st.apiKey != "") && st.libAvailable)))
    ∧ fallbackEntered merged st d = fallbackEntered merged st d' := by
  refine ⟨?_, rfl⟩
  obtain ⟨dis, rsn, key, lib⟩ := st
  cases merged with
  | nil =>
    cases dis with
    | false =>
      cases lib with
      | false => simp [fallbackEntered, openai_available]
      | true =>
        by_cases hk : key = ""
        · subst hk
          have hps : pyStrip "" = "" := rfl
          simp [fallbackEntered, openai_available, hps]
        · by_cases hps : pyStrip key = ""
          · simp [fallbackEntered, openai_available, hk, hps]
          · simp [fallbackEntered, openai_available, hk, hps]
    | true => simp [fallbackEntered, openai_available]
  | cons c rest => simp [fallbackEntered]

theorem should_disable_isSome_of_indicator (e : ExcInfo)
    (h : quotaAuthIndicator e = true) :
    (should_disable_openai_from_exception e).isSome = true := by
  simp only [quotaAuthIndicator, Bool.or_eq_true, beq_iff_eq] at h
  simp only [should_disable_openai_from_exception]
  split_ifs <;> simp_all

theorem breaker_never_resets (st : ProcState) (hdis : st.disabled = true)
    (events : List ExcInfo) : (events.foldl breakerStep st).disabled = true := by
  induction events generalizing st with
  | nil => exact hdis
  | cons e rest ih =>
    simp only [List.foldl_cons]
    apply ih
    simp only [breakerStep]
    cases should_disable_openai_from_exception e with
    | none => exact hdis
    | some r => simp [disable_openai]

/-- C7: an exception carrying a quota, invalid-credential or permission
indicator sets the process-wide disabled flag; once set, the flag survives
every later event and `_openai_available` stays false, so every subsequent
fallback for any target is skipped without a network attempt; and a
rate-limit error (HTTP 429 whose text says "rate limit") without quota or
auth indicators leaves the state untouched. -/
theorem circuit_breaker_latches_on_quota_auth_errors
    (st : ProcState) (e : ExcInfo) (events : List ExcInfo)
    (h : quotaAuthIndicator e = true) :
    ((breakerStep st e).disabled = true)
    ∧ ((events.foldl breakerStep (breakerStep st e)).disabled = true)
    ∧ (openai_available (events.foldl breakerStep (breakerStep st e)) = false)
    ∧ (∀ e' : ExcInfo, e'.status = some 429 →
        strContains (strLower e'.msg) "rate limit" = true →
        quotaAuthIndicator e' = false →
        breakerStep st e' = st) := by
  have hs := should_disable_isSome_of_indicator e h
  have hdis : (breakerStep st e).disabled = true := by
    simp only [breakerStep]
    cases hsd : should_disable_openai_from_exception e with
    | none => rw [hsd] at hs; cases hs
    | some r => simp [disable_openai]
  have hfold := breaker_never_resets _ hdis events
  refine ⟨hdis, hfold, by simp [openai_available, hfold], ?_⟩
  intro e' h429 hrl hno
  simp only [quotaAuthIndicator, Bool.or_eq_true, beq_iff_eq, not_or,
    Bool.or_eq_false_iff] at hno
  simp only [breakerStep, should_disable_openai_from_exception,
    hno.1.1.1.1.1, hno.1.1.1.1.2, hno.1.1.1.2, hno.1.1.2, h429, hrl]
  simp

/-- Witness for C7 at concrete inputs: a quota-exhaustion error trips the
breaker; after a later unrelated error the flag is still set and the
availability gate is closed; and a pure rate-limit 429 does not trip a
fresh breaker. -/
theorem circuit_breaker_latches_witness :
    ((breakerStep ⟨false, "", "sk-test", true⟩
        ⟨"You exceeded your current quota", some 429⟩).disabled = true)
    ∧ (([⟨"connection reset", none⟩] : List ExcInfo).foldl breakerStep
        (breakerStep ⟨false, "", "sk-test", true⟩
          ⟨"You exceeded your current quota", some 429⟩)).disabled = true
    ∧ openai_available (([⟨"connection reset", none⟩] : List ExcInfo).foldl breakerStep
        (breakerStep ⟨false, "", "sk-test", true⟩
          ⟨"You exceeded your current quota", some 429⟩)) = false
    ∧ breakerStep ⟨false, "", "sk-test", true⟩ ⟨"Rate limit reached for requests", some 429⟩
        = ⟨false, "", "sk-test", true⟩ := by
  have h := circuit_breaker_latches_on_quota_auth_errors
    ⟨false, "", "sk-test", true⟩ ⟨"You exceeded your current quota", some 429⟩
    [⟨"connection reset", none⟩] (by decide)
  exact ⟨h.1, h.2.1, h.2.2.1,
    h.2.2.2 ⟨"Rate limit reached for requests", some 429⟩ rfl (by decide) (by decide)⟩

theorem strLower_eq_empty_iff (s : String) : strLower s = "" ↔ s = "" := by
  constructor
  · intro h
    have h2 : s.data.map Char.toLower = ([] : List Char) := congrArg String.data h
    have h3 : s.data = [] := List.map_eq_nil_iff.mp h2
    cases s
    simp_all
  · intro h
    rw [h]
    rfl

theorem insertByConfidenceDesc_perm (c : LeaderCandidate) (l : List LeaderCandidate) :
    (insertByConfidenceDesc c l).Perm (c :: l) := by
  induction l with
  | nil => exact List.Perm.refl _
  | cons x xs ih =>
    simp only [insertByConfidenceDesc]
    split_ifs with h
    · exact List.Perm.refl _
    · exact (List.Perm.cons x ih).trans (List.Perm.swap c x xs)

theorem sortByConfidenceDesc_perm (l : List LeaderCandidate) :
    (sortByConfidenceDesc l).Perm l := by
  induction l with
  | nil => exact List.Perm.refl _
  | cons x xs ih =>
    simp only [sortByConfidenceDesc, List.foldr_cons]
    exact (insertByConfidenceDesc_perm x _).trans (List.Perm.cons x ih)

theorem insertByConfidenceDesc_pairwise (c : LeaderCandidate)
    (l : List LeaderCandidate)
    (h : l.Pairwise (fun a b => b.confidence ≤ a.confidence)) :
    (insertByConfidenceDesc c l).Pairwise
      (fun a b => b.confidence ≤ a.confidence) := by
  induction l with
  | nil => simp [insertByConfidenceDesc]
  | cons x xs ih =>
    rw [List.pairwise_cons] at h
    simp only [insertByConfidenceDesc]
    split_ifs with hcx
    · rw [List.pairwise_cons]
      refine ⟨?_, List.pairwise_cons.mpr h⟩
      intro y hy
      rcases List.mem_cons.mp hy with rfl | hy2
      · exact hcx
      · exact le_trans (h.1 y hy2) hcx
    · rw [List.pairwise_cons]
      refine ⟨?_, ih h.2⟩
      intro y hy
      have hy3 : y ∈ c :: xs := (insertByConfidenceDesc_perm c xs).mem_iff.mp hy
      rcases List.mem_cons.mp hy3 with rfl | hy4
      · exact le_of_lt (lt_of_not_le hcx)
      · exact h.1 y hy4

theorem sortByConfidenceDesc_pairwise (l : List LeaderCandidate) :
    (sortByConfidenceDesc l).Pairwise (fun a b => b.confidence ≤ a.confidence) := by
  induction l with
  | nil => simp [sortByConfidenceDesc]
  | cons x xs ih => exact insertByConfidenceDesc_pairwise x _ ih

theorem dedupeGo_sublist (maxN : Nat) (l : List LeaderCandidate) :
    ∀ (seen : List (String × String)) (n : Nat),
      (dedupeGo maxN l seen n).Sublist l := by
  induction l with
  | nil => intro seen n; simp [dedupeGo]
  | cons it rest ih =>
    intro seen n
    simp only [dedupeGo]
    split_ifs with h1 h2 h3
    · exact (ih seen n).trans (List.sublist_cons_self it rest)
    · exact (ih seen n).trans (List.sublist_cons_self it rest)
    · exact List.Sublist.cons₂ it (List.nil_sublist rest)
    · exact List.Sublist.cons₂ it (ih _ _)

theorem dedupeGo_length (maxN : Nat) (l : List LeaderCandidate) :
    ∀ (seen : List (String × String)) (n : Nat), n < maxN →
      (dedupeGo maxN l seen n).length ≤ maxN - n := by
  induction l with
  | nil => intro seen n _; simp [dedupeGo]
  | cons it rest ih =>
    intro seen n hn
    simp only [dedupeGo]
    split_ifs with h1 h2 h3
    · exact ih seen n hn
    · exact ih seen n hn
    · simp only [List.length_cons, List.length_nil]
      omega
    · have h4 : n + 1 < maxN := by omega
      have h5 := ih ((strLower (norm it.name), strLower (norm it.role)) :: seen) (n + 1) h4
      simp only [List.length_cons]
      omega

theorem dedupeGo_valid (maxN : Nat) (l : List LeaderCandidate) :
    ∀ seen n x, x ∈ dedupeGo maxN l seen n →
      norm x.name ≠ "" ∧ norm x.role ≠ "" := by
  induction l with
  | nil => intro seen n x hx; simp [dedupeGo] at hx
  | cons it rest ih =>
    intro seen n x hx
    simp only [dedupeGo] at hx
    split_ifs at hx with h1 h2 h3
    · exact ih seen n x hx
    · exact ih seen n x hx
    · simp only [List.mem_singleton] at hx
      subst hx
      simp only [Bool.or_eq_true, decide_eq_true_eq, not_or] at h1
      exact h1
    · rcases List.mem_cons.mp hx with rfl | hx2
      · simp only [Bool.or_eq_true, decide_eq_true_eq, not_or] at h1
        exact h1
      · exact ih _ _ x hx2

theorem dedupeGo_key_not_seen (maxN : Nat) (l : List LeaderCandidate) :
    ∀ seen n x, x ∈ dedupeGo maxN l seen n →
      seen.contains (dedupeKey x) = false := by
  induction l with
  | nil => intro seen n x hx; simp [dedupeGo] at hx
  | cons it rest ih =>
    intro seen n x hx
    simp only [dedupeGo] at hx
    split_ifs at hx with h1 h2 h3
    · exact ih seen n x hx
    · exact ih seen n x hx
    · simp only [List.mem_singleton] at hx
      subst hx
      simp only [Bool.not_eq_true] at h2
      simpa [dedupeKey] using h2
    · rcases List.mem_cons.mp hx with rfl | hx2
      · simp only [Bool.not_eq_true] at h2
        simpa [dedupeKey] using h2
      · have h5 := ih _ _ x hx2
        simp only [List.contains_cons, Bool.or_eq_false_iff] at h5
        exact h5.2

theorem dedupeGo_pairwise_keys (maxN : Nat) (l : List LeaderCandidate) :
    ∀ seen n, (dedupeGo maxN l seen n).Pairwise
      (fun a b => dedupeKey a ≠ dedupeKey b) := by
  induction l with
  | nil => intro seen n; simp [dedupeGo]
  | cons it rest ih =>
    intro seen n
    simp only [dedupeGo]
    split_ifs with h1 h2 h3
    · exact ih seen n
    · exact ih seen n
    · simp
    · rw [List.pairwise_cons]
      refine ⟨?_, ih _ _⟩
      intro b hb
      have hns := dedupeGo_key_not_seen maxN rest _ _ b hb
      simp only [List.contains_cons, Bool.or_eq_false_iff, beq_eq_false_iff_ne] at hns
      intro heq
      apply hns.1
      rw [← heq]
      simp [dedupeKey]

theorem dedupeGo_max_conf (maxN : Nat) :
    ∀ (l : List LeaderCandidate),
      l.Pairwise (fun a b => b.confidence ≤ a.confidence) →
      ∀ seen n x, x ∈ dedupeGo maxN l seen n →
      ∀ y ∈ l, dedupeKey y = dedupeKey x → y.confidence ≤ x.confidence := by
  intro l
  induction l with
  | nil => intro _ seen n x hx; simp [dedupeGo] at hx
  | cons it rest ih =>
    intro hs seen n x hx y hy hkey
    rw [List.pairwise_cons] at hs
    simp only [dedupeGo] at hx
    split_ifs at hx with h1 h2 h3
    · rcases List.mem_cons.mp hy with rfl | hy2
      · exfalso
        have hv := dedupeGo_valid maxN rest seen n x hx
        simp only [Bool.or_eq_true, decide_eq_true_eq] at h1
        have hpair := congrArg Prod.fst hkey
        have hpair2 := congrArg Prod.snd hkey
        simp only [dedupeKey] at hpair hpair2
        rcases h1 with h | h
        · rw [h] at hpair
          exact hv.1 ((strLower_eq_empty_iff _).mp hpair.symm)
        · rw [h] at hpair2
          exact hv.2 ((strLower_eq_empty_iff _).mp hpair2.symm)
      · exact ih hs.2 seen n x hx y hy2 hkey
    · rcases List.mem_cons.mp hy with rfl | hy2
      · exfalso
        have hns := dedupeGo_key_not_seen maxN rest seen n x hx
        rw [← hkey] at hns
        simp only [dedupeKey] at hns
        rw [h2] at hns
        cases hns
      · exact ih hs.2 seen n x hx y hy2 hkey
    · simp only [List.mem_singleton] at hx
      subst hx
      rcases List.mem_cons.mp hy with rfl | hy2
      · exact le_refl _
      · exact hs.1 y hy2
    · rcases List.mem_cons.mp hx with rfl | hx2
      · rcases List.mem_cons.mp hy with rfl | hy2
        · exact le_refl _
        · exact hs.1 y hy2
      · rcases List.mem_cons.mp hy with rfl | hy2
        · exfalso
          have hns := dedupeGo_key_not_seen maxN rest _ _ x hx2
          simp only [List.contains_cons, Bool.or_eq_false_iff,
            beq_eq_false_iff_ne] at hns
          apply hns.1
          rw [← hkey]
          simp [dedupeKey]
        · exact ih hs.2 _ _ x hx2 y hy2 hkey

theorem dedupeGo_complete (maxN : Nat) (l : List LeaderCandidate) :
    ∀ seen n, (dedupeGo maxN l seen n).length + n < maxN →
      ∀ y ∈ l, norm y.name ≠ "" → norm y.role ≠ "" →
        seen.contains (dedupeKey y) = true
          ∨ ∃ x ∈ dedupeGo maxN l seen n, dedupeKey x = dedupeKey y := by
  induction l with
  | nil => intro seen n _ y hy; simp at hy
  | cons it rest ih =>
    intro seen n hlen y hy hyn hyr
    simp only [dedupeGo] at hlen ⊢
    split_ifs at hlen ⊢ with h1 h2 h3
    · rcases List.mem_cons.mp hy with rfl | hy2
      · exfalso
        simp only [Bool.or_eq_true, decide_eq_true_eq] at h1
        rcases h1 with h | h
        · exact hyn h
        · exact hyr h
      · exact ih seen n hlen y hy2 hyn hyr
    · rcases List.mem_cons.mp hy with rfl | hy2
      · left
        simpa [dedupeKey] using h2
      · exact ih seen n hlen y hy2 hyn hyr
    · exfalso
      simp only [List.length_cons, List.length_nil] at hlen
      omega
    · rcases List.mem_cons.mp hy with rfl | hy2
      · right
        exact ⟨y, List.mem_cons_self y _, rfl⟩
      · have hlen2 : (dedupeGo maxN rest
            ((strLower (norm it.name), strLower (norm it.role)) :: seen)
            (n + 1)).length + (n + 1) < maxN := by
          simp only [List.length_cons] at hlen
          omega
        rcases ih ((strLower (norm it.name), strLower (norm it.role)) :: seen)
            (n + 1) hlen2 y hy2 hyn hyr with hcon | ⟨x, hx, hxk⟩
        · simp only [List.contains_cons, Bool.or_eq_true] at hcon
          rcases hcon with hbeq | hcon2
          · right
            refine ⟨it, List.mem_cons_self it _, ?_⟩
            have := beq_iff_eq.mp hbeq
            rw [this]
            simp [dedupeKey]
          · exact Or.inl hcon2
        · exact Or.inr ⟨x, List.mem_cons_of_mem it hx, hxk⟩

/-- C8 counterexample: the break test of `_dedupe_leaders` runs only after
an append, so with `max_n = 0` the function still returns one candidate —
the output size is not bounded by maxN for maxN = 0, refuting the claim's
"for every maxN". -/
theorem dedupe_zero_cap_overflow :
    ¬((dedupe_leaders [⟨"John Smith", "CEO", "https://example.com/team",
        "John Smith — CEO", 90⟩] 0).length ≤ 0) := by decide

/-- C8 as amended: for every candidate list and every maxN ≥ 1 (the pipeline
always calls with 1 ≤ maxN ≤ 5), deduplication returns at most maxN
candidates, in descending confidence order, with pairwise-distinct
case-insensitive (name, role) keys; every output candidate comes from the
input and carries the highest confidence among the input candidates sharing
its key; and when the output is not truncated at maxN, every valid input
candidate's key is represented. -/
theorem dedupe_leaders_spec (items : List LeaderCandidate) (maxN : Nat)
    (hmax : 1 ≤ maxN) :
    (dedupe_leaders items maxN).length ≤ maxN
    ∧ (dedupe_leaders items maxN).Pairwise (fun a b => b.confidence ≤ a.confidence)
    ∧ (dedupe_leaders items maxN).Pairwise (fun a b => dedupeKey a ≠ dedupeKey b)
    ∧ (∀ x ∈ dedupe_leaders items maxN, x ∈ items
        ∧ ∀ y ∈ items, dedupeKey y = dedupeKey x → y.confidence ≤ x.confidence)
    ∧ ((dedupe_leaders items maxN).length < maxN →
        ∀ y ∈ items, norm y.name ≠ "" → norm y.role ≠ "" →
          ∃ x ∈ dedupe_leaders items maxN, dedupeKey x = dedupeKey y) := by
  have hperm := sortByConfidenceDesc_perm items
  have hsorted := sortByConfidenceDesc_pairwise items
  have hsub := dedupeGo_sublist maxN (sortByConfidenceDesc items) [] 0
  simp only [dedupe_leaders] at hsub ⊢
  refine ⟨?_, ?_, ?_, ?_, ?_⟩
  · have h := dedupeGo_length maxN (sortByConfidenceDesc items) [] 0 (by omega)
    omega
  · exact List.Pairwise.sublist hsub hsorted
  · exact dedupeGo_pairwise_keys maxN _ [] 0
  · intro x hx
    refine ⟨hperm.mem_iff.mp (hsub.subset hx), ?_⟩
    intro y hy hkey
    exact dedupeGo_max_conf maxN (sortByConfidenceDesc items) hsorted [] 0 x hx
      y (hperm.mem_iff.mpr hy) hkey
  · intro hlen y hy hyn hyr
    have h := dedupeGo_complete maxN (sortByConfidenceDesc items) [] 0
      (by omega) y (hperm.mem_iff.mpr hy) hyn hyr
    rcases h with hcon | hex
    · cases hcon
    · exact hex

/-- Witness for C8 (amended) at concrete inputs: two candidates sharing the
case-insensitive key ("john smith", "ceo") at confidences 0.70 and 0.90
dedupe to the single highest-confidence instance, within the cap 5. -/
theorem dedupe_leaders_spec_witness :
    ((dedupe_leaders
        [⟨"John Smith", "CEO", "https://a.com/team", "John Smith — CEO", 70⟩,
         ⟨"JOHN SMITH", "ceo", "https://b.com/board", "JOHN SMITH — ceo", 90⟩] 5).length ≤ 5)
    ∧ dedupe_leaders
        [⟨"John Smith", "CEO", "https://a.com/team", "John Smith — CEO", 70⟩,
         ⟨"JOHN SMITH", "ceo", "https://b.com/board", "JOHN SMITH — ceo", 90⟩] 5 =
      [⟨"JOHN SMITH", "ceo", "https://b.com/board", "JOHN SMITH — ceo", 90⟩] := by
  refine ⟨(dedupe_leaders_spec _ 5 (by decide)).1, by decide⟩

theorem mem_extract_jsonld_conf {pairs : List (String × String)} {url : String}
    {c : LeaderCandidate} (hc : c ∈ extract_jsonld_people pairs url) :
    MIN_CONFIDENCE ≤ c.confidence := by
  simp only [extract_jsonld_people, List.mem_filter, decide_eq_true_eq] at hc
  exact hc.2

theorem mem_extract_html_conf {triples : List (String × String × String)}
    {url : String} {c : LeaderCandidate}
    (hc : c ∈ extract_html_people_strict triples url) :
    MIN_CONFIDENCE ≤ c.confidence := by
  simp only [extract_html_people_strict, List.mem_filterMap] at hc
  obtain ⟨t, _, ht⟩ := hc
  split_ifs at ht with h
  cases ht
  exact h

theorem mem_extract_xhr_conf {pairs : List (String × String)} {url : String}
    {c : LeaderCandidate} (hc : c ∈ extract_from_xhr_json pairs url) :
    MIN_CONFIDENCE ≤ c.confidence := by
  simp only [extract_from_xhr_json, List.mem_filterMap] at hc
  obtain ⟨p, _, hp⟩ := hc
  split_ifs at hp with h1 h2
  cases hp
  exact h2

theorem mem_extract_all_conf {jp : List (String × String)}
    {dt : List (String × String × String)} {url : String} {c : LeaderCandidate}
    (hc : c ∈ extract_all_candidates jp dt url) :
    MIN_CONFIDENCE ≤ c.confidence := by
  simp only [extract_all_candidates] at hc
  split_ifs at hc
  · exact mem_extract_jsonld_conf hc
  · exact mem_extract_html_conf hc

/-- C3 counterexample: the language-model fallback path validates its
(name, role) pairs only by the name/role heuristics and never scores them;
at the concrete input the pair ("John Smith", "CEO") is returned as the
final leader list although the defined confidence formula gives it 0.50 —
below the 0.65 threshold — for the fallback's home-page URL, refuting the
claim that the gate covers the language-model path. -/
theorem llm_fallback_returns_subthreshold_candidate :
    (llmFallbackReturn [("John Smith", "CEO")] 5).leaders_raw =
        [⟨"John Smith", "CEO", ""⟩]
    ∧ score_candidate "https://example.com/" "John Smith" "CEO" "" < MIN_CONFIDENCE := by
  constructor
  · decide
  · decide

/-- C3 as amended: every candidate the three scraping extractor paths
(structured-data, DOM-heuristic, API-payload) feed into the final ranked
leader list has confidence at least MIN_CONFIDENCE — candidates below the
threshold are discarded inside each extractor, and deduplication never
introduces new candidates.  (The language-model fallback path does not
score its candidates; see the counterexample.) -/
theorem extractor_paths_respect_confidence_gate (pages : List PageExtract)
    (maxN : Nat) (c : LeaderCandidate)
    (hc : c ∈ dedupe_leaders (mergedCandidates pages) maxN) :
    MIN_CONFIDENCE ≤ c.confidence := by
  have hmem : c ∈ mergedCandidates pages :=
    (sortByConfidenceDesc_perm _).mem_iff.mp
      ((dedupeGo_sublist maxN _ [] 0).subset hc)
  simp only [mergedCandidates, List.mem_append, List.mem_flatten,
    List.mem_map] at hmem
  rcases hmem with ⟨l, ⟨p, _, rfl⟩, hcl⟩ | ⟨l, ⟨p, _, rfl⟩, hcl⟩
  · exact mem_extract_all_conf hcl
  · exact mem_extract_xhr_conf hcl

/-- Witness for C3 (amended) at a concrete input: a structured-data person
record on a `/team` page survives extraction and deduplication with
confidence 0.90, and the theorem certifies it is at or above the 0.65
threshold. -/
theorem extractor_paths_gate_witness :
    ((⟨"John Smith", "CEO", "https://example.com/team", "John Smith — CEO", 90⟩ :
        LeaderCandidate) ∈
      dedupe_leaders (mergedCandidates
        [⟨[("John Smith", "CEO")], [], [], "https://example.com/team"⟩]) 5)
    ∧ MIN_CONFIDENCE ≤
        (⟨"John Smith", "CEO", "https://example.com/team", "John Smith — CEO", 90⟩ :
          LeaderCandidate).confidence := by
  refine ⟨by decide, extractor_paths_respect_confidence_gate
    [⟨[("John Smith", "CEO")], [], [], "https://example.com/team"⟩] 5 _ (by decide)⟩

/-- C5 as a code-bug evaluation: `_base_domain` uses `lstrip("www.")`, which
strips every leading `w` or `.` character instead of the `www.` prefix, so
the hosts `wild.com` and `ild.com` both reduce to `ild.com` and compare as
the same domain.  At the failing input — a contact-kind crawl of
`https://wild.com` whose home page links to `https://ild.com/contact` — the
page discoverer returns the off-domain URL even though its host differs
from the target's host, contradicting the same-domain guarantee. -/
theorem discoverer_returns_off_host_page :
    "https://ild.com/contact" ∈
        discover_internal_pages webWild (fun _ => true) "https://wild.com" "contact"
    ∧ (urlparse "https://ild.com/contact").netloc ≠
        (urlparse (normalize_url "https://wild.com")).netloc
    ∧ base_domain "https://ild.com/contact" =
        base_domain (normalize_url "https://wild.com") := by
  refine ⟨by decide, by decide, by decide⟩

end Case2
